import Mathlib

/-!
Shallow embedding of the `dispatch` state-machine library (vanilla engine and
builder) and verification of its specified properties.

The engine is the `Dispatch` class: fields `initialState`, `state`, `events`,
`validNextEvents`, `currentEvent`, `listeners`, with operations `dispatch`,
`subscribe`, `getState`, `getCurrentEvent`, `getValidNextEvents`, `resetState`.
The builder is `createDispatch`, which validates the transition table against
the declared event names before constructing an engine.

Modelling choices:
- JavaScript objects used as string-keyed mappings become association lists
  `List (String × _)`; `Object.keys` is `List.map Prod.fst`, preserving the
  declared (insertion) order.
- An updater receives the Immer draft and a payload, may edit the draft in
  place (modelled by returning the edited draft content) and returns a result
  value: a mergeable object, `undefined`, or a function. A thrown exception is
  an `Except.error` carrying a message.
- The listener `Set` becomes a duplicate-free `List Nat` of listener
  identities, preserving insertion order; the synchronous notification fan-out
  performed inside `dispatch` is returned as an explicit call log of
  (listener, argument) pairs.
- `dispatch` returns the machine after the call together with the error (if
  it threw) and the notification log; in the source every mutation happens
  after every throw site, so on a throw the returned machine is the input
  machine unchanged.
-/

namespace DispatchLib

/-- Result value returned by an event updater: a non-null non-function object
(whose own-enumerable keys are merged onto the draft by `Object.assign`,
modelled as a merge function), `undefined`/void, or a function value. -/
inductive UpdaterResult (D : Type) where
  | objRes (merge : D → D)
  | voidRes
  | fnRes (cont : D → D)

/-- An event updater: takes the draft content and an optional payload and
either throws (message) or returns the draft content after its in-place edits
together with its result value. -/
def Updater (D P : Type) : Type :=
  D → Option P → Except String (D × UpdaterResult D)

/-- The engine instance: the private fields of the `Dispatch` class. -/
structure Machine (D P : Type) where
  initialState : D
  state : D
  events : List (String × Updater D P)
  validNextEvents : List (String × List String)
  currentEvent : Option String
  listeners : List Nat

/-- Errors thrown by `Dispatch.dispatch`, by kind:
`unknownEvent` for `Event "X" does not exist`;
`validNextNotArray` for `Valid Next Events should be an array of string`;
`invalidTransition` for `Cannot transition from "cur" to "target"`, carrying
the current event, the rejected event and the permitted-next list;
`updaterThrew` for an exception raised by the event updater itself. -/
inductive DispatchError where
  | unknownEvent (name : String)
  | validNextNotArray
  | invalidTransition (current target : String) (validNext : List String)
  | updaterThrew (msg : String)
deriving DecidableEq, Repr

/-- Key lookup in a string-keyed association list (JavaScript property
lookup on a plain object used as a record). -/
def lookupKey (key : String) : List (String × α) → Option α
  | [] => none
  | (k, v) :: rest => if k = key then some v else lookupKey key rest

/-- The transition-permission check of `dispatch` (source lines 190-207):
nothing is checked when `currentEvent` is null; otherwise the entry for the
current event is looked up, a missing entry (not an array) throws, a
non-empty entry not containing the event throws `invalidTransition`, and an
empty entry permits everything. -/
def checkTransition (m : Machine D P) (eventName : String) : Option DispatchError :=
  match m.currentEvent with
  | none => none
  | some cur =>
    match lookupKey cur m.validNextEvents with
    | none => some .validNextNotArray
    | some validNext =>
      if 0 < validNext.length ∧ eventName ∉ validNext then
        some (.invalidTransition cur eventName validNext)
      else
        none

/-- The Immer `produce` recipe of `dispatch` (source lines 211-223): run the
updater on the draft; a returned non-null non-function object is merged onto
the draft; a void or function result leaves the draft as the updater edited
it (the function value is not invoked). -/
def applyRecipe (u : Updater D P) (payload : Option P) (s : D) : Except String D :=
  match u s payload with
  | .error e => .error e
  | .ok (draft, .objRes merge) => .ok (merge draft)
  | .ok (draft, .voidRes) => .ok draft
  | .ok (draft, .fnRes _) => .ok draft

/-- `Dispatch.dispatch` (source lines 184-230). Returns the machine after the
call, the thrown error if any, and the log of synchronous listener
invocations (listener identity paired with the state it was called with).
Every mutation in the source happens after every throw site, so the machine
is returned unchanged whenever an error is present. -/
def dispatch (m : Machine D P) (eventName : String) (payload : Option P) :
    Machine D P × Option DispatchError × List (Nat × D) :=
  match lookupKey eventName m.events with
  | none => (m, some (.unknownEvent eventName), [])
  | some updater =>
    match checkTransition m eventName with
    | some err => (m, some err, [])
    | none =>
      match applyRecipe updater payload m.state with
      | .error e => (m, some (.updaterThrew e), [])
      | .ok newState =>
        let m2 : Machine D P :=
          { m with state := newState, currentEvent := some eventName }
        (m2, none, m2.listeners.map (fun id => (id, m2.state)))

/-- `Dispatch.subscribe` membership effect: `Set.add` inserts the listener
only if it is not already a member, at the end of the iteration order. -/
def subscribe (m : Machine D P) (id : Nat) : Machine D P :=
  if id ∈ m.listeners then m else { m with listeners := m.listeners ++ [id] }

/-- The unsubscribe closure returned by `Dispatch.subscribe`: `Set.delete` of
that listener, a no-op when the listener is not a member. -/
def unsubscribe (m : Machine D P) (id : Nat) : Machine D P :=
  { m with listeners := m.listeners.erase id }

/-- `Dispatch.getState`: the current state snapshot (`produce` with an empty
recipe returns the same immutable value). -/
def getState (m : Machine D P) : D := m.state

/-- `Dispatch.getCurrentEvent`. -/
def getCurrentEvent (m : Machine D P) : Option String := m.currentEvent

/-- `Dispatch.getValidNextEvents` (source lines 245-251): all declared event
names when `currentEvent` is null, otherwise the transition-table entry for
the current event with a missing entry coalesced to the empty list. -/
def getValidNextEvents (m : Machine D P) : List String :=
  match m.currentEvent with
  | none => m.events.map Prod.fst
  | some cur => (lookupKey cur m.validNextEvents).getD []

/-- `Dispatch.resetState` (source lines 253-256): restore the initial
snapshot and clear the current event; listeners are untouched. -/
def resetState (m : Machine D P) : Machine D P :=
  { m with state := m.initialState, currentEvent := none }

/-- Builder configuration: the argument of `createDispatch`. The transition
table is a partial mapping, a key may be present with an undefined value
(`Option` value `none`); the optional schema exposes `safeParse`, modelled as
returning the diagnostic message on failure and nothing on success. -/
structure Config (D P : Type) where
  initialState : D
  events : List (String × Updater D P)
  validNextEvents : List (String × Option (List String))
  schema : Option (D → Option String)

/-- The declared event names, in declared order (`Object.keys(events)`). -/
def eventNames (cfg : Config D P) : List String := cfg.events.map Prod.fst

/-- First element of the list that is not among `names` (the first successor
reference the builder loop rejects). -/
def firstUnknown (names : List String) : List String → Option String
  | [] => none
  | n :: rest => if n ∈ names then firstUnknown names rest else some n

/-- The referential-integrity loop of `createDispatch` (source lines 62-84):
for each entry of `validNextEvents`, in order, reject an unknown key, then
reject the first unknown successor inside an array-valued entry. -/
def checkEntries (names : List String) :
    List (String × Option (List String)) → Option String
  | [] => none
  | (event, nextEvents) :: rest =>
    if event ∈ names then
      match nextEvents with
      | none => checkEntries names rest
      | some l =>
        match firstUnknown names l with
        | some n => some n
        | none => checkEntries names rest
    else
      some event

/-- The normalization loop of `createDispatch` (source lines 87-90):
`for key in validNextEvents: record[key] = validNextEvents[key] || []` maps
each present key with an undefined value to an explicit empty list; keys
absent from the config table are not added. -/
def normalizeTable (t : List (String × Option (List String))) :
    List (String × List String) :=
  t.map (fun kv => (kv.1, kv.2.getD []))

/-- Errors thrown by `createDispatch`: failed schema validation of the
initial state (with the schema diagnostic), or a transition-table reference
to an event name not among the declared ones (with the list of available
event names used in the message). -/
inductive BuildError where
  | initialStateValidation (msg : String)
  | unknownEventReference (name : String) (available : List String)
deriving DecidableEq, Repr

/-- `createDispatch` (builder, source lines 39-96): optional schema check on
the initial state, then referential-integrity check of the transition table,
then normalization and engine construction. -/
def createDispatch (cfg : Config D P) : Except BuildError (Machine D P) :=
  match cfg.schema with
  | some parse =>
    match parse cfg.initialState with
    | some msg => .error (.initialStateValidation msg)
    | none =>
      match checkEntries (eventNames cfg) cfg.validNextEvents with
      | some bad => .error (.unknownEventReference bad (eventNames cfg))
      | none =>
        .ok { initialState := cfg.initialState
              state := cfg.initialState
              events := cfg.events
              validNextEvents := normalizeTable cfg.validNextEvents
              currentEvent := none
              listeners := [] }
  | none =>
    match checkEntries (eventNames cfg) cfg.validNextEvents with
    | some bad => .error (.unknownEventReference bad (eventNames cfg))
    | none =>
      .ok { initialState := cfg.initialState
            state := cfg.initialState
            events := cfg.events
            validNextEvents := normalizeTable cfg.validNextEvents
            currentEvent := none
            listeners := [] }

/-- One public operation on a machine, for lifetime-invariant statements. -/
inductive Op (P : Type) where
  | dispatchOp (eventName : String) (payload : Option P)
  | resetOp
  | subscribeOp (id : Nat)
  | unsubscribeOp (id : Nat)

/-- Apply one public operation (a failed dispatch leaves the machine as it
was, matching the source where every mutation follows every throw site). -/
def applyOp (m : Machine D P) : Op P → Machine D P
  | .dispatchOp e p => (dispatch m e p).1
  | .resetOp => resetState m
  | .subscribeOp id => subscribe m id
  | .unsubscribeOp id => unsubscribe m id

/-- Run a sequence of public operations. -/
def runOps (m : Machine D P) (ops : List (Op P)) : Machine D P :=
  ops.foldl applyOp m

/-- Run a sequence of dispatch calls, keeping the machine each call returns. -/
def dispatchSeq (m : Machine D P) : List (String × Option P) → Machine D P
  | [] => m
  | (e, p) :: rest => dispatchSeq (dispatch m e p).1 rest

/-- Every dispatch call in the sequence succeeds (throws no error). -/
def allSucceed (m : Machine D P) : List (String × Option P) → Prop
  | [] => True
  | (e, p) :: rest => (dispatch m e p).2.1 = none ∧ allSucceed (dispatch m e p).1 rest

/-- Invariant of C9: the current event is null or a declared event name. -/
def currentEventOk (m : Machine D P) : Prop :=
  ∀ cur, m.currentEvent = some cur → ∃ u, lookupKey cur m.events = some u

/-- The config transition table references an event name not among `names`,
either as a key or inside a successor sequence. -/
def hasBadRef (names : List String)
    (entries : List (String × Option (List String))) : Prop :=
  (∃ k v, (k, v) ∈ entries ∧ k ∉ names) ∨
  (∃ k l, (k, some l) ∈ entries ∧ ∃ n ∈ l, n ∉ names)

/-! Concrete instances used by witnesses and counterexamples. -/

/-- Draft-style updater that edits nothing and returns undefined. -/
def updVoidN : Updater Nat Unit := fun s _ => .ok (s, .voidRes)

/-- Return-style updater producing the merge `count := count + 1`. -/
def updIncN : Updater Nat Unit := fun s _ => .ok (s, .objRes (fun _ => s + 1))

/-- Updater that throws. -/
def updBoom : Updater Nat Unit := fun _ _ => .error "boom"

/-- Two-event machine with transitions A -> [B], B -> [] and two listeners. -/
def mAB : Machine Nat Unit :=
  { initialState := 0
    state := 0
    events := [("A", updVoidN), ("B", updIncN)]
    validNextEvents := [("A", ["B"]), ("B", [])]
    currentEvent := none
    listeners := [0, 1] }

/-- One-event machine whose updater throws. -/
def mBoom : Machine Nat Unit :=
  { initialState := 0
    state := 0
    events := [("E", updBoom)]
    validNextEvents := [("E", [])]
    currentEvent := none
    listeners := [5] }

/-- Builder config declaring events A and B with an empty transition table. -/
def cfgAB : Config Nat Unit :=
  { initialState := 0
    events := [("A", updVoidN), ("B", updIncN)]
    validNextEvents := []
    schema := none }

/-- The machine `createDispatch cfgAB` constructs. -/
def mFromBuild : Machine Nat Unit :=
  { initialState := 0
    state := 0
    events := cfgAB.events
    validNextEvents := []
    currentEvent := none
    listeners := [] }

/-- Builder config whose transition table has the key Z, absent from the
declared event set. -/
def cfgBad : Config Nat Unit :=
  { initialState := 0
    events := [("A", updVoidN)]
    validNextEvents := [("Z", some [])]
    schema := none }

/-- A function value an updater can return: were it invoked as a drafting
continuation it would set the state to 99. -/
def contC4 : Nat → Nat := fun _ => 99

/-- Updater that leaves the draft untouched and returns the function value
`contC4` as its result. -/
def updFnC4 : Updater Nat Unit := fun s _ => .ok (s, .fnRes contC4)

/-- One-event machine whose updater returns a function value. -/
def mC4 : Machine Nat Unit :=
  { initialState := 0
    state := 0
    events := [("E", updFnC4)]
    validNextEvents := [("E", [])]
    currentEvent := none
    listeners := [] }

/-! General shape lemmas about `dispatch`. -/

/-- A dispatch call either throws, returning the machine unchanged with no
notification, or succeeds (the event is declared, the transition check
passes, the updater does not throw), returning the machine with only `state`
and `currentEvent` replaced and notifying every listener with the new
state. -/
theorem dispatch_shape (m : Machine D P) (e : String) (p : Option P) :
    (∃ err, dispatch m e p = (m, some err, ([] : List (Nat × D)))) ∨
    (∃ s u, lookupKey e m.events = some u ∧ checkTransition m e = none ∧
      applyRecipe u p m.state = .ok s ∧
      dispatch m e p =
        ({ m with state := s, currentEvent := some e },
          none,
          m.listeners.map (fun id => (id, s)))) := by
  unfold dispatch
  split
  · exact .inl ⟨_, rfl⟩
  next u hu =>
    split
    · exact .inl ⟨_, rfl⟩
    next hc =>
      split
      · exact .inl ⟨_, rfl⟩
      next s ha => exact .inr ⟨s, u, hu, hc, ha, rfl⟩

theorem dispatch_initialState (m : Machine D P) (e : String) (p : Option P) :
    ((dispatch m e p).1).initialState = m.initialState := by
  rcases dispatch_shape m e p with ⟨err, h⟩ | ⟨s, u, _, _, _, h⟩ <;> rw [h]

theorem dispatch_listeners (m : Machine D P) (e : String) (p : Option P) :
    ((dispatch m e p).1).listeners = m.listeners := by
  rcases dispatch_shape m e p with ⟨err, h⟩ | ⟨s, u, _, _, _, h⟩ <;> rw [h]

theorem dispatch_events (m : Machine D P) (e : String) (p : Option P) :
    ((dispatch m e p).1).events = m.events := by
  rcases dispatch_shape m e p with ⟨err, h⟩ | ⟨s, u, _, _, _, h⟩ <;> rw [h]

theorem dispatch_error_eq (m : Machine D P) (e : String) (p : Option P) (err : DispatchError)
    (h : (dispatch m e p).2.1 = some err) :
    dispatch m e p = (m, some err, ([] : List (Nat × D))) := by
  rcases dispatch_shape m e p with ⟨err2, h2⟩ | ⟨s, u, _, _, _, h2⟩
  · rw [h2] at h ⊢
    rw [Option.some_inj.mp h] at h2 ⊢
  · rw [h2] at h
    exact absurd h (by simp)

theorem dispatch_unknown (m : Machine D P) (e : String) (p : Option P)
    (h : lookupKey e m.events = none) :
    dispatch m e p = (m, some (.unknownEvent e), ([] : List (Nat × D))) := by
  unfold dispatch
  rw [h]

theorem dispatch_check_err (m : Machine D P) (e : String) (p : Option P)
    (u : Updater D P) (err : DispatchError)
    (hu : lookupKey e m.events = some u)
    (hc : checkTransition m e = some err) :
    dispatch m e p = (m, some err, ([] : List (Nat × D))) := by
  unfold dispatch
  simp only [hu, hc]

theorem dispatch_throw_eq (m : Machine D P) (e : String) (p : Option P)
    (u : Updater D P) (msg : String)
    (hu : lookupKey e m.events = some u)
    (hc : checkTransition m e = none)
    (ha : applyRecipe u p m.state = .error msg) :
    dispatch m e p = (m, some (.updaterThrew msg), ([] : List (Nat × D))) := by
  unfold dispatch
  simp only [hu, hc, ha]

theorem dispatch_ok_eq (m : Machine D P) (e : String) (p : Option P)
    (u : Updater D P) (s : D)
    (hu : lookupKey e m.events = some u)
    (hc : checkTransition m e = none)
    (ha : applyRecipe u p m.state = .ok s) :
    dispatch m e p =
      ({ m with state := s, currentEvent := some e }, none,
        m.listeners.map (fun id => (id, s))) := by
  unfold dispatch
  simp only [hu, hc, ha]

theorem dispatch_error_of_checked (m : Machine D P) (e : String) (p : Option P)
    (u : Updater D P)
    (hu : lookupKey e m.events = some u)
    (hc : checkTransition m e = none) :
    ∀ err, (dispatch m e p).2.1 = some err → ∃ msg, err = .updaterThrew msg := by
  intro err herr
  cases ha : applyRecipe u p m.state with
  | error msg =>
    rw [dispatch_throw_eq m e p u msg hu hc ha] at herr
    exact ⟨msg, (Option.some_inj.mp herr).symm⟩
  | ok s =>
    rw [dispatch_ok_eq m e p u s hu hc ha] at herr
    exact absurd herr (by simp)

theorem checkTransition_bootstrap (m : Machine D P) (e : String)
    (h : m.currentEvent = none) : checkTransition m e = none := by
  unfold checkTransition
  rw [h]

theorem checkTransition_missing (m : Machine D P) (e cur : String)
    (h : m.currentEvent = some cur)
    (hv : lookupKey cur m.validNextEvents = none) :
    checkTransition m e = some .validNextNotArray := by
  unfold checkTransition
  simp only [h, hv]

theorem checkTransition_empty (m : Machine D P) (e cur : String)
    (h : m.currentEvent = some cur)
    (hv : lookupKey cur m.validNextEvents = some []) :
    checkTransition m e = none := by
  unfold checkTransition
  simp only [h, hv]
  simp

theorem checkTransition_invalid (m : Machine D P) (e cur : String) (vn : List String)
    (h : m.currentEvent = some cur)
    (hv : lookupKey cur m.validNextEvents = some vn)
    (hne : vn ≠ []) (hnm : e ∉ vn) :
    checkTransition m e = some (.invalidTransition cur e vn) := by
  unfold checkTransition
  simp only [h, hv]
  rw [if_pos]
  exact ⟨List.length_pos.mpr hne, hnm⟩

/-- A successfully built machine is exactly the engine constructed from the
config: both state snapshots are the initial state, the event table is the
declared one, the transition table is the normalized config table, the
current event is null and the listener set is empty. -/
theorem createDispatch_ok_shape (cfg : Config D P) (m0 : Machine D P)
    (hok : createDispatch cfg = .ok m0) :
    m0 = { initialState := cfg.initialState
           state := cfg.initialState
           events := cfg.events
           validNextEvents := normalizeTable cfg.validNextEvents
           currentEvent := none
           listeners := [] } := by
  unfold createDispatch at hok
  cases hs : cfg.schema with
  | some parse =>
    simp only [hs] at hok
    cases hp : parse cfg.initialState with
    | some msg =>
      simp only [hp] at hok
      exact Except.noConfusion hok
    | none =>
      simp only [hp] at hok
      cases hce : checkEntries (eventNames cfg) cfg.validNextEvents with
      | some bad =>
        simp only [hce] at hok
        exact Except.noConfusion hok
      | none =>
        simp only [hce] at hok
        cases hok
        rfl
  | none =>
    simp only [hs] at hok
    cases hce : checkEntries (eventNames cfg) cfg.validNextEvents with
    | some bad =>
      simp only [hce] at hok
      exact Except.noConfusion hok
    | none =>
      simp only [hce] at hok
      cases hok
      rfl

theorem firstUnknown_mem (names l : List String) (n : String)
    (h : firstUnknown names l = some n) : n ∈ l ∧ n ∉ names := by
  induction l with
  | nil => simp [firstUnknown] at h
  | cons a rest ih =>
    unfold firstUnknown at h
    by_cases ha : a ∈ names
    · rw [if_pos ha] at h
      obtain ⟨h1, h2⟩ := ih h
      exact ⟨List.mem_cons_of_mem a h1, h2⟩
    · rw [if_neg ha] at h
      have hn : a = n := Option.some_inj.mp h
      constructor
      · rw [← hn]
        exact List.mem_cons_self a rest
      · rw [← hn]
        exact ha

theorem firstUnknown_none (names l : List String)
    (h : firstUnknown names l = none) : ∀ n ∈ l, n ∈ names := by
  induction l with
  | nil =>
    intro n hn
    exact nomatch hn
  | cons a rest ih =>
    unfold firstUnknown at h
    by_cases ha : a ∈ names
    · rw [if_pos ha] at h
      intro n hn
      rcases List.mem_cons.mp hn with rfl | hn2
      · exact ha
      · exact ih h n hn2
    · rw [if_neg ha] at h
      exact nomatch h

theorem checkEntries_cons_known_none (names : List String) (event : String)
    (tl : List (String × Option (List String))) (he : event ∈ names) :
    checkEntries names ((event, none) :: tl) = checkEntries names tl := by
  simp only [checkEntries, if_pos he]

theorem checkEntries_cons_known_some (names : List String) (event : String)
    (l0 : List String) (tl : List (String × Option (List String)))
    (he : event ∈ names) :
    checkEntries names ((event, some l0) :: tl) =
      (match firstUnknown names l0 with
        | some n => some n
        | none => checkEntries names tl) := by
  simp only [checkEntries, if_pos he]

theorem checkEntries_cons_unknown (names : List String) (event : String)
    (v : Option (List String)) (tl : List (String × Option (List String)))
    (he : event ∉ names) :
    checkEntries names ((event, v) :: tl) = some event := by
  unfold checkEntries
  rw [if_neg he]

theorem checkEntries_some_of_bad (names : List String)
    (entries : List (String × Option (List String)))
    (hbad : hasBadRef names entries) :
    ∃ name, checkEntries names entries = some name ∧ name ∉ names ∧
      ((∃ v, (name, v) ∈ entries) ∨
        (∃ k l, (k, some l) ∈ entries ∧ name ∈ l)) := by
  induction entries with
  | nil =>
    rcases hbad with ⟨k, v, hm, _⟩ | ⟨k, l, hm, _⟩ <;> exact nomatch hm
  | cons hd tl ih =>
    obtain ⟨event, nextEvents⟩ := hd
    by_cases he : event ∈ names
    · cases nextEvents with
      | none =>
        have hbad2 : hasBadRef names tl := by
          rcases hbad with ⟨k, v, hm, hk⟩ | ⟨k, l, hm, hn⟩
          · rcases List.mem_cons.mp hm with heq | hm2
            · rw [Prod.mk.injEq] at heq
              apply absurd _ hk
              rw [heq.1]
              exact he
            · exact .inl ⟨k, v, hm2, hk⟩
          · rcases List.mem_cons.mp hm with heq | hm2
            · rw [Prod.mk.injEq] at heq
              exact nomatch heq.2
            · exact .inr ⟨k, l, hm2, hn⟩
        obtain ⟨name, h1, h2, h3⟩ := ih hbad2
        refine ⟨name, ?_, h2, ?_⟩
        · rw [checkEntries_cons_known_none names event tl he]
          exact h1
        · rcases h3 with ⟨v, hv⟩ | ⟨k, l, hm, hn⟩
          · exact .inl ⟨v, List.mem_cons_of_mem _ hv⟩
          · exact .inr ⟨k, l, List.mem_cons_of_mem _ hm, hn⟩
      | some l0 =>
        cases hfu : firstUnknown names l0 with
        | some n =>
          obtain ⟨hnl, hnn⟩ := firstUnknown_mem names l0 n hfu
          refine ⟨n, ?_, hnn, .inr ⟨event, l0, List.mem_cons_self _ _, hnl⟩⟩
          rw [checkEntries_cons_known_some names event l0 tl he, hfu]
        | none =>
          have hsub := firstUnknown_none names l0 hfu
          have hbad2 : hasBadRef names tl := by
            rcases hbad with ⟨k, v, hm, hk⟩ | ⟨k, l, hm, hn⟩
            · rcases List.mem_cons.mp hm with heq | hm2
              · rw [Prod.mk.injEq] at heq
                apply absurd _ hk
                rw [heq.1]
                exact he
              · exact .inl ⟨k, v, hm2, hk⟩
            · rcases List.mem_cons.mp hm with heq | hm2
              · rw [Prod.mk.injEq] at heq
                obtain ⟨n, hnl, hnn⟩ := hn
                apply absurd _ hnn
                apply hsub
                exact (Option.some_inj.mp heq.2) ▸ hnl
              · exact .inr ⟨k, l, hm2, hn⟩
          obtain ⟨name, h1, h2, h3⟩ := ih hbad2
          refine ⟨name, ?_, h2, ?_⟩
          · rw [checkEntries_cons_known_some names event l0 tl he, hfu]
            exact h1
          · rcases h3 with ⟨v, hv⟩ | ⟨k, l, hm, hn⟩
            · exact .inl ⟨v, List.mem_cons_of_mem _ hv⟩
            · exact .inr ⟨k, l, List.mem_cons_of_mem _ hm, hn⟩
    · exact ⟨event, checkEntries_cons_unknown names event nextEvents tl he, he,
        .inl ⟨nextEvents, List.mem_cons_self _ _⟩⟩

theorem subscribe_currentEvent (m : Machine D P) (id : Nat) :
    (subscribe m id).currentEvent = m.currentEvent := by
  unfold subscribe
  split <;> rfl

theorem subscribe_events (m : Machine D P) (id : Nat) :
    (subscribe m id).events = m.events := by
  unfold subscribe
  split <;> rfl

theorem dispatchSeq_initialState (m : Machine D P) (ops : List (String × Option P)) :
    (dispatchSeq m ops).initialState = m.initialState := by
  induction ops generalizing m with
  | nil => rfl
  | cons hd tl ih =>
    obtain ⟨e, p⟩ := hd
    calc (dispatchSeq (dispatch m e p).1 tl).initialState
        = ((dispatch m e p).1).initialState := ih _
      _ = m.initialState := dispatch_initialState m e p

theorem dispatchSeq_listeners (m : Machine D P) (ops : List (String × Option P)) :
    (dispatchSeq m ops).listeners = m.listeners := by
  induction ops generalizing m with
  | nil => rfl
  | cons hd tl ih =>
    obtain ⟨e, p⟩ := hd
    calc (dispatchSeq (dispatch m e p).1 tl).listeners
        = ((dispatch m e p).1).listeners := ih _
      _ = m.listeners := dispatch_listeners m e p

theorem applyOp_events (m : Machine D P) (op : Op P) :
    (applyOp m op).events = m.events := by
  cases op with
  | dispatchOp e p => exact dispatch_events m e p
  | resetOp => rfl
  | subscribeOp id => exact subscribe_events m id
  | unsubscribeOp id => rfl

theorem applyOp_currentEventOk (m : Machine D P) (op : Op P)
    (h : currentEventOk m) : currentEventOk (applyOp m op) := by
  cases op with
  | dispatchOp e p =>
    show currentEventOk (dispatch m e p).1
    rcases dispatch_shape m e p with ⟨err, hsh⟩ | ⟨s, u, hu, _, _, hsh⟩
    · rw [hsh]
      exact h
    · rw [hsh]
      intro cur hcur
      have h2 : some e = some cur := hcur
      cases h2
      exact ⟨u, hu⟩
  | resetOp =>
    intro cur hcur
    have h2 : (none : Option String) = some cur := hcur
    exact nomatch h2
  | subscribeOp id =>
    intro cur hcur
    have hcur2 : (subscribe m id).currentEvent = some cur := hcur
    rw [subscribe_currentEvent] at hcur2
    show ∃ u, lookupKey cur (subscribe m id).events = some u
    rw [subscribe_events]
    exact h cur hcur2
  | unsubscribeOp id =>
    intro cur hcur
    exact h cur hcur

theorem filter_pair_length (l : List Nat) (s : D) (i : Nat) :
    ((l.map (fun j => (j, s))).filter (fun x => x.1 == i)).length = l.count i := by
  induction l with
  | nil => rfl
  | cons a t ih =>
    simp only [List.map_cons, List.filter_cons, List.count_cons]
    by_cases hai : a = i
    · subst hai
      simp [ih]
    · simp [hai, ih, Ne.symm hai]

theorem runOps_currentEventOk (m : Machine D P) (ops : List (Op P))
    (h : currentEventOk m) : currentEventOk (runOps m ops) := by
  induction ops generalizing m with
  | nil => exact h
  | cons op tl ih => exact ih _ (applyOp_currentEventOk m op h)

theorem runOps_events (m : Machine D P) (ops : List (Op P)) :
    (runOps m ops).events = m.events := by
  induction ops generalizing m with
  | nil => rfl
  | cons op tl ih =>
    calc (runOps (applyOp m op) tl).events
        = (applyOp m op).events := ih _
      _ = m.events := applyOp_events m op

/-! Claim theorems. -/

/-- C1: a failed dispatch call (unknown event, rejected transition, or any
other throw) returns synchronously with an error and leaves `state`,
`currentEvent` and the listener set exactly as they were, invoking no
listener; in particular dispatch of an undeclared event name always throws
`UnknownEventError` and changes nothing. -/
theorem dispatch_failure_atomic (m : Machine D P) (e : String) (p : Option P) :
    (∀ err, (dispatch m e p).2.1 = some err →
      (dispatch m e p).1 = m ∧ (dispatch m e p).2.2 = []) ∧
    (lookupKey e m.events = none →
      dispatch m e p = (m, some (.unknownEvent e), ([] : List (Nat × D)))) := by
  constructor
  · intro err h
    rw [dispatch_error_eq m e p err h]
    exact ⟨rfl, rfl⟩
  · exact dispatch_unknown m e p

/-- Witness for C1 at the concrete machine `mAB` and the undeclared event
name C: the call throws `unknownEvent` and the machine is unchanged. -/
theorem dispatch_failure_atomic_witness :
    (dispatch mAB "C" (none : Option Unit)).2.1 = some (.unknownEvent "C") ∧
    (dispatch mAB "C" (none : Option Unit)).1 = mAB ∧
    (dispatch mAB "C" (none : Option Unit)).2.2 = [] := by
  refine ⟨rfl, ?_, ?_⟩
  · exact ((dispatch_failure_atomic mAB "C" none).1 (.unknownEvent "C") rfl).1
  · exact ((dispatch_failure_atomic mAB "C" none).1 (.unknownEvent "C") rfl).2

/-- C7: `getValidNextEvents` returns all declared event names, in declared
order, when `currentEvent` is null; otherwise it returns the transition-table
entry for the current event, the answer being the empty sequence both when
the entry is present and empty and when it is absent. -/
theorem getValidNextEvents_spec (m : Machine D P) :
    (m.currentEvent = none → getValidNextEvents m = m.events.map Prod.fst) ∧
    (∀ cur, m.currentEvent = some cur →
      getValidNextEvents m = (lookupKey cur m.validNextEvents).getD [] ∧
      (lookupKey cur m.validNextEvents = none → getValidNextEvents m = []) ∧
      (lookupKey cur m.validNextEvents = some [] → getValidNextEvents m = [])) := by
  constructor
  · intro h
    unfold getValidNextEvents
    rw [h]
  · intro cur h
    have hg : getValidNextEvents m = (lookupKey cur m.validNextEvents).getD [] := by
      unfold getValidNextEvents
      rw [h]
    refine ⟨hg, ?_, ?_⟩ <;> intro h2 <;> rw [hg, h2] <;> rfl

/-- Witness for C7 at `mAB`: before any dispatch the full declared list is
returned, and after dispatching A the entry for A is returned. -/
theorem getValidNextEvents_spec_witness :
    mAB.currentEvent = none ∧
    getValidNextEvents mAB = ["A", "B"] ∧
    (dispatch mAB "A" (none : Option Unit)).1.currentEvent = some "A" ∧
    getValidNextEvents (dispatch mAB "A" (none : Option Unit)).1 = ["B"] := by
  refine ⟨rfl, ?_, rfl, ?_⟩
  · exact (getValidNextEvents_spec mAB).1 rfl
  · exact ((getValidNextEvents_spec (dispatch mAB "A" none).1).2 "A" rfl).1

/-- C10: when the updater bound to a dispatched event itself throws, the
exception propagates to the caller (the dispatch call reports it), the
machine is left with `state`, `currentEvent` and listeners unchanged, and no
listener is invoked. -/
theorem updater_exception_atomic (m : Machine D P) (e : String) (p : Option P)
    (u : Updater D P) (msg : String)
    (h1 : lookupKey e m.events = some u)
    (h2 : checkTransition m e = none)
    (h3 : applyRecipe u p m.state = .error msg) :
    dispatch m e p = (m, some (.updaterThrew msg), ([] : List (Nat × D))) := by
  unfold dispatch
  simp only [h1, h2, h3]

/-- Witness for C10 at `mBoom`: the updater of E throws with message boom,
the dispatch call reports it and the machine is unchanged. -/
theorem updater_exception_atomic_witness :
    lookupKey "E" mBoom.events = some updBoom ∧
    checkTransition mBoom "E" = none ∧
    applyRecipe updBoom (none : Option Unit) mBoom.state = .error "boom" ∧
    dispatch mBoom "E" (none : Option Unit) =
      (mBoom, some (.updaterThrew "boom"), []) :=
  ⟨rfl, rfl, rfl, updater_exception_atomic mBoom "E" none updBoom "boom" rfl rfl rfl⟩

/-- C2 counterexample: `cfgAB` declares events A and B with no transition
entries; build succeeds but does not add an entry for A, and after
dispatching A, dispatching the declared event B throws
`validNextNotArray` instead of being permitted — the missing entry is an
error, contradicting the claim that it is treated as an empty (unrestricted)
sequence and never an error. -/
theorem missing_entry_unrestricted_cex :
    createDispatch cfgAB = .ok mFromBuild ∧
    lookupKey "A" mFromBuild.validNextEvents = none ∧
    (dispatch (dispatch mFromBuild "A" (none : Option Unit)).1 "B"
        (none : Option Unit)).2.1 = some .validNextNotArray ∧
    some DispatchError.validNextNotArray ≠ (none : Option DispatchError) :=
  ⟨rfl, rfl, rfl, by simp⟩

/-- C2 (amended): when the current event has no entry in the engine
transition table, dispatch of a declared event throws the
`Valid Next Events should be an array of string` error (the missing entry is
itself an error, not an unrestricted empty sequence); build normalizes only
the keys present in the config table, mapping an undefined value to an
explicit empty sequence, and adds no entries for absent keys. -/
theorem missing_entry_throws (m : Machine D P) (e : String) (p : Option P)
    (u : Updater D P) (cur : String) (cfg : Config D P) (m0 : Machine D P) :
    (m.currentEvent = some cur → lookupKey cur m.validNextEvents = none →
      lookupKey e m.events = some u →
      dispatch m e p = (m, some .validNextNotArray, ([] : List (Nat × D)))) ∧
    (createDispatch cfg = .ok m0 →
      m0.validNextEvents = normalizeTable cfg.validNextEvents) := by
  constructor
  · intro h hv hu
    exact dispatch_check_err m e p u _ hu (checkTransition_missing m e cur h hv)
  · intro hok
    unfold createDispatch at hok
    cases hs : cfg.schema with
    | some parse =>
      simp only [hs] at hok
      cases hp : parse cfg.initialState with
      | some msg =>
        simp only [hp] at hok
        exact Except.noConfusion hok
      | none =>
        simp only [hp] at hok
        cases hce : checkEntries (eventNames cfg) cfg.validNextEvents with
        | some bad =>
          simp only [hce] at hok
          exact Except.noConfusion hok
        | none =>
          simp only [hce] at hok
          cases hok
          rfl
    | none =>
      simp only [hs] at hok
      cases hce : checkEntries (eventNames cfg) cfg.validNextEvents with
      | some bad =>
        simp only [hce] at hok
        exact Except.noConfusion hok
      | none =>
        simp only [hce] at hok
        cases hok
        rfl

/-- Witness for C2 (amended) at `cfgAB`: build yields a table with no entry
for A, and after dispatching A a dispatch of B throws
`validNextNotArray`. -/
theorem missing_entry_throws_witness :
    createDispatch cfgAB = .ok mFromBuild ∧
    mFromBuild.validNextEvents = normalizeTable cfgAB.validNextEvents ∧
    dispatch (dispatch mFromBuild "A" (none : Option Unit)).1 "B"
        (none : Option Unit) =
      ((dispatch mFromBuild "A" (none : Option Unit)).1,
        some .validNextNotArray, []) := by
  refine ⟨rfl, ?_, ?_⟩
  · exact (missing_entry_throws mFromBuild "B" none updVoidN "A" cfgAB mFromBuild).2 rfl
  · exact (missing_entry_throws (dispatch mFromBuild "A" none).1 "B" none updIncN "A"
      cfgAB mFromBuild).1 rfl rfl rfl

/-- C3: when `currentEvent` is null, the transition check passes and a
dispatch of any declared event can only fail with the updater throwing
(the first event is never transition-checked); when the successor sequence of
the current event is non-empty and does not contain the dispatched declared
event, dispatch throws `invalidTransition` carrying the rejected event, the
current event and the permitted-next list, changing nothing; when that
sequence is empty, any declared event again passes the transition check. -/
theorem transition_permission_rules (m : Machine D P) (e : String) (p : Option P)
    (u : Updater D P) (cur : String) (vn : List String) :
    (m.currentEvent = none → checkTransition m e = none) ∧
    (m.currentEvent = none → lookupKey e m.events = some u →
      ∀ err, (dispatch m e p).2.1 = some err → ∃ msg, err = .updaterThrew msg) ∧
    (m.currentEvent = some cur → lookupKey e m.events = some u →
      lookupKey cur m.validNextEvents = some vn → vn ≠ [] → e ∉ vn →
      dispatch m e p = (m, some (.invalidTransition cur e vn), ([] : List (Nat × D)))) ∧
    (m.currentEvent = some cur → lookupKey e m.events = some u →
      lookupKey cur m.validNextEvents = some [] →
      ∀ err, (dispatch m e p).2.1 = some err → ∃ msg, err = .updaterThrew msg) := by
  refine ⟨checkTransition_bootstrap m e, ?_, ?_, ?_⟩
  · intro h hu
    exact dispatch_error_of_checked m e p u hu (checkTransition_bootstrap m e h)
  · intro h hu hv hne hnm
    exact dispatch_check_err m e p u _ hu (checkTransition_invalid m e cur vn h hv hne hnm)
  · intro h hu hv
    exact dispatch_error_of_checked m e p u hu (checkTransition_empty m e cur h hv)

/-- Witness for C3 at `mAB` (transitions A maps to the list holding B): before
any dispatch the check passes; after dispatching A, dispatching A again
throws `invalidTransition` with the rejected event, the current event and the
permitted list, leaving the machine unchanged. -/
theorem transition_permission_rules_witness :
    checkTransition mAB "A" = none ∧
    dispatch (dispatch mAB "A" (none : Option Unit)).1 "A" (none : Option Unit) =
      ((dispatch mAB "A" (none : Option Unit)).1,
        some (.invalidTransition "A" "A" ["B"]), []) := by
  constructor
  · exact (transition_permission_rules mAB "A" none updVoidN "A" ["B"]).1 rfl
  · exact (transition_permission_rules (dispatch mAB "A" none).1 "A" none updVoidN
      "A" ["B"]).2.2.1 rfl rfl rfl (by simp) (by simp)

/-- C4 counterexample: the updater of event E in `mC4` returns the function
value `contC4` (which would set the state to 99) while leaving the draft at
0; the dispatch succeeds and the new state is the draft content 0, not 99 —
the function-valued result is ignored, not invoked as a drafting
continuation as the claim states. -/
theorem fn_result_not_invoked_cex :
    (dispatch mC4 "E" (none : Option Unit)).2.1 = none ∧
    (dispatch mC4 "E" (none : Option Unit)).1.state = 0 ∧
    contC4 0 = 99 ∧ (0 : Nat) ≠ 99 :=
  ⟨rfl, rfl, rfl, by simp⟩

/-- C4 (amended): on a successful dispatch the updater result is interpreted
polymorphically — a non-null non-function object is shallow-merged onto the
draft, while an undefined/void or function result leaves the new state equal
to the final draft content, a function-valued result being ignored rather
than invoked; exactly one new state is produced and `currentEvent` is set to
the dispatched event name unconditionally on success. -/
theorem updater_result_interpretation (m : Machine D P) (e : String) (p : Option P)
    (u : Updater D P) (d : D) (res : UpdaterResult D)
    (hu : lookupKey e m.events = some u)
    (hc : checkTransition m e = none)
    (hr : u m.state p = .ok (d, res)) :
    (dispatch m e p).2.1 = none ∧
    (dispatch m e p).1.currentEvent = some e ∧
    (∀ g, res = .objRes g → (dispatch m e p).1.state = g d) ∧
    (res = .voidRes → (dispatch m e p).1.state = d) ∧
    (∀ f, res = .fnRes f → (dispatch m e p).1.state = d) := by
  cases res with
  | objRes g =>
    have ha : applyRecipe u p m.state = .ok (g d) := by
      unfold applyRecipe
      rw [hr]
    rw [dispatch_ok_eq m e p u (g d) hu hc ha]
    refine ⟨rfl, rfl, ?_, ?_, ?_⟩
    · intro g2 hg
      injection hg with hg2
      rw [← hg2]
    · intro h
      exact nomatch h
    · intro f h
      exact nomatch h
  | voidRes =>
    have ha : applyRecipe u p m.state = .ok d := by
      unfold applyRecipe
      rw [hr]
    rw [dispatch_ok_eq m e p u d hu hc ha]
    refine ⟨rfl, rfl, ?_, fun _ => rfl, ?_⟩
    · intro g2 h
      exact nomatch h
    · intro f h
      exact nomatch h
  | fnRes f0 =>
    have ha : applyRecipe u p m.state = .ok d := by
      unfold applyRecipe
      rw [hr]
    rw [dispatch_ok_eq m e p u d hu hc ha]
    refine ⟨rfl, rfl, ?_, ?_, fun _ _ => rfl⟩
    · intro g2 h
      exact nomatch h
    · intro h
      exact nomatch h

/-- Witness for C4 (amended) at `mAB`: the return-style updater of B merges
`count := count + 1`, the dispatch succeeds, the new state is 1 and the
current event becomes B. -/
theorem updater_result_interpretation_witness :
    lookupKey "B" mAB.events = some updIncN ∧
    (dispatch mAB "B" (none : Option Unit)).2.1 = none ∧
    (dispatch mAB "B" (none : Option Unit)).1.currentEvent = some "B" ∧
    (dispatch mAB "B" (none : Option Unit)).1.state = 1 := by
  have h := updater_result_interpretation mAB "B" none updIncN 0
    (.objRes (fun _ => 0 + 1)) rfl rfl rfl
  exact ⟨rfl, h.1, h.2.1, h.2.2.1 _ rfl⟩

/-- C8: a successful dispatch synchronously invokes each current listener
exactly once with the new state snapshot (after `state` and `currentEvent`
are updated, the log pairing every listener with the post-update state);
subscribing the same callback twice is a single membership (the second
subscribe changes nothing), and the unsubscribe closure removes exactly that
listener, is safe to call twice, and leaves every other listener
subscribed. -/
theorem listener_fanout_and_subscription (m : Machine D P) (e : String)
    (p : Option P) (m2 : Machine D P) (log : List (Nat × D)) (id : Nat)
    (hnd : m.listeners.Nodup) :
    (dispatch m e p = (m2, none, log) →
      log = m.listeners.map (fun i => (i, m2.state)) ∧
      m2.listeners = m.listeners ∧
      ∀ i ∈ m.listeners, (log.filter (fun x => x.1 == i)).length = 1) ∧
    subscribe (subscribe m id) id = subscribe m id ∧
    (unsubscribe m id).listeners = m.listeners.erase id ∧
    id ∉ (unsubscribe m id).listeners ∧
    (∀ j ∈ m.listeners, j ≠ id → j ∈ (unsubscribe m id).listeners) ∧
    unsubscribe (unsubscribe m id) id = unsubscribe m id := by
  refine ⟨?_, ?_, rfl, ?_, ?_, ?_⟩
  · intro h
    rcases dispatch_shape m e p with ⟨err, hsh⟩ | ⟨s, u, _, _, _, hsh⟩
    · rw [hsh] at h
      injection h with h1 hrest
      injection hrest with h2 h3
      exact nomatch h2
    · rw [hsh] at h
      injection h with h1 hrest
      injection hrest with h2 h3
      subst h1
      subst h3
      refine ⟨rfl, rfl, ?_⟩
      intro i hi
      rw [filter_pair_length]
      exact List.count_eq_one_of_mem hnd hi
  · by_cases hmem : id ∈ m.listeners
    · have h1 : subscribe m id = m := by
        unfold subscribe
        rw [if_pos hmem]
      rw [h1]
      exact h1
    · have h1 : subscribe m id = { m with listeners := m.listeners ++ [id] } := by
        unfold subscribe
        rw [if_neg hmem]
      rw [h1]
      unfold subscribe
      rw [if_pos (List.mem_append_right _ (List.mem_singleton_self id))]
  · exact fun h => ((List.Nodup.mem_erase_iff hnd).mp h).1 rfl
  · intro j hj hne
    exact (List.Nodup.mem_erase_iff hnd).mpr ⟨hne, hj⟩
  · have hnot : id ∉ m.listeners.erase id :=
      fun h => ((List.Nodup.mem_erase_iff hnd).mp h).1 rfl
    show { m with listeners := (m.listeners.erase id).erase id } =
      { m with listeners := m.listeners.erase id }
    rw [List.erase_of_not_mem hnot]

/-- Witness for C8 at `mAB` (listeners 0 and 1): dispatching A notifies both
listeners once with the new state 0, a double subscribe of listener 7 equals
a single one, and a double unsubscribe of listener 0 equals a single one. -/
theorem listener_fanout_and_subscription_witness :
    mAB.listeners.Nodup ∧
    (dispatch mAB "A" (none : Option Unit)).2.2 = [(0, 0), (1, 0)] ∧
    (((dispatch mAB "A" (none : Option Unit)).2.2).filter
      (fun x => x.1 == 0)).length = 1 ∧
    subscribe (subscribe mAB 7) 7 = subscribe mAB 7 ∧
    unsubscribe (unsubscribe mAB 0) 0 = unsubscribe mAB 0 := by
  have hnd : mAB.listeners.Nodup := by decide
  have h := listener_fanout_and_subscription mAB "A" (none : Option Unit)
    (dispatch mAB "A" none).1 (dispatch mAB "A" none).2.2 0 hnd
  have h7 := listener_fanout_and_subscription mAB "A" (none : Option Unit)
    (dispatch mAB "A" none).1 (dispatch mAB "A" none).2.2 7 hnd
  refine ⟨hnd, ?_, ?_, h7.2.1, h.2.2.2.2.2⟩
  · exact (h.1 rfl).1
  · exact (h.1 rfl).2.2 0 (by decide)

/-- C5: after any sequence of successful dispatches on a built machine,
`resetState` yields a state equal to the snapshot captured at construction
and a null current event, and leaves the listener set unchanged. -/
theorem reset_law (cfg : Config D P) (m : Machine D P)
    (ops : List (String × Option P))
    (hok : createDispatch cfg = .ok m) (_hs : allSucceed m ops) :
    getState (resetState (dispatchSeq m ops)) = cfg.initialState ∧
    getCurrentEvent (resetState (dispatchSeq m ops)) = none ∧
    (resetState (dispatchSeq m ops)).listeners = (dispatchSeq m ops).listeners := by
  refine ⟨?_, rfl, rfl⟩
  show (dispatchSeq m ops).initialState = cfg.initialState
  rw [dispatchSeq_initialState, createDispatch_ok_shape cfg m hok]

/-- Witness for C5: build from `cfgAB`, dispatch A successfully, reset; the
state is back to the initial 0, the current event is null and the listener
set is the one from before the reset. -/
theorem reset_law_witness :
    createDispatch cfgAB = .ok mFromBuild ∧
    allSucceed mFromBuild [("A", (none : Option Unit))] ∧
    getState (resetState (dispatchSeq mFromBuild [("A", none)])) = 0 ∧
    getCurrentEvent (resetState (dispatchSeq mFromBuild [("A", none)])) = none ∧
    (resetState (dispatchSeq mFromBuild [("A", none)])).listeners =
      (dispatchSeq mFromBuild [("A", none)]).listeners := by
  have hs : allSucceed mFromBuild [("A", (none : Option Unit))] := ⟨rfl, trivial⟩
  have h := reset_law cfgAB mFromBuild [("A", none)] rfl hs
  exact ⟨rfl, hs, h.1, h.2.1, h.2.2⟩

/-- C9: on a built machine, after any sequence of public operations
(dispatch, reset, subscribe, unsubscribe) the current event is either null
or a key of the declared events mapping, and that mapping itself never
changes over the machine lifetime. -/
theorem currentEvent_invariant (cfg : Config D P) (m : Machine D P)
    (ops : List (Op P)) (hok : createDispatch cfg = .ok m) :
    currentEventOk (runOps m ops) ∧ (runOps m ops).events = cfg.events := by
  have hshape := createDispatch_ok_shape cfg m hok
  constructor
  · apply runOps_currentEventOk
    rw [hshape]
    intro cur hcur
    have h2 : (none : Option String) = some cur := hcur
    exact nomatch h2
  · rw [runOps_events, hshape]

/-- C6: whenever the transition table of a build configuration references an
event name absent from the declared event set, as a key or inside a
successor sequence, and the optional schema does not reject the initial
state first, `createDispatch` fails with `UnknownEventReferenceError` naming
an offending event (the message enumerating the declared names) and no
machine is constructed. -/
theorem build_rejects_unknown_references (cfg : Config D P)
    (hschema : ∀ parse, cfg.schema = some parse → parse cfg.initialState = none)
    (hbad : hasBadRef (eventNames cfg) cfg.validNextEvents) :
    ∃ name,
      createDispatch cfg = .error (.unknownEventReference name (eventNames cfg)) ∧
      name ∉ eventNames cfg ∧
      ((∃ v, (name, v) ∈ cfg.validNextEvents) ∨
        (∃ k l, (k, some l) ∈ cfg.validNextEvents ∧ name ∈ l)) := by
  obtain ⟨name, h1, h2, h3⟩ :=
    checkEntries_some_of_bad (eventNames cfg) cfg.validNextEvents hbad
  refine ⟨name, ?_, h2, h3⟩
  unfold createDispatch
  cases hs : cfg.schema with
  | none => simp only [h1]
  | some parse => simp only [hschema parse hs, h1]

/-- Witness for C6 at `cfgBad` (transition-table key Z, declared events only
A): build fails with the reference error naming Z and yields no machine. -/
theorem build_rejects_unknown_references_witness :
    (∃ name,
      createDispatch cfgBad = .error (.unknownEventReference name (eventNames cfgBad)) ∧
      name ∉ eventNames cfgBad ∧
      ((∃ v, (name, v) ∈ cfgBad.validNextEvents) ∨
        (∃ k l, (k, some l) ∈ cfgBad.validNextEvents ∧ name ∈ l))) ∧
    createDispatch cfgBad = .error (.unknownEventReference "Z" ["A"]) :=
  ⟨build_rejects_unknown_references cfgBad (fun p h => nomatch h)
      (.inl ⟨"Z", some [], List.mem_cons_self _ _, by decide⟩),
    rfl⟩

/-- Witness for C9: build from `cfgAB` and run a dispatch, a subscribe and a
reset; the invariant holds of the resulting machine and the event table is
still the declared one. -/
theorem currentEvent_invariant_witness :
    createDispatch cfgAB = .ok mFromBuild ∧
    currentEventOk (runOps mFromBuild
      [Op.dispatchOp "A" (none : Option Unit), Op.subscribeOp 3, Op.resetOp]) ∧
    (runOps mFromBuild
      [Op.dispatchOp "A" (none : Option Unit), Op.subscribeOp 3, Op.resetOp]).events =
      cfgAB.events := by
  have h := currentEvent_invariant cfgAB mFromBuild
    [Op.dispatchOp "A" (none : Option Unit), Op.subscribeOp 3, Op.resetOp] rfl
  exact ⟨rfl, h.1, h.2⟩

end DispatchLib
